import Mathlib

/-!
Verification of the infoman-quizzer study page (src/unnamed/part_000).

The development shallowly embeds the three cores of that file:
  * the table sub-parser `parseTableData`,
  * the block scanner / dispatcher of `renderContent` (the regex
    loop over the pattern for bracketed TAG blocks), and
  * the review-session state machine (`loadCard`, `handleActionClick`,
    `handleRatingClick`, `shuffleArray`, session setup).

Strings are modelled as `List Char` internally (Lean `String` at the
boundaries).  JavaScript helpers (`trim`, `split`, `toLowerCase`,
`startsWith`) are re-defined explicitly below, faithful to their JS
semantics on the character sets that occur.
-/

namespace Quizzer

/-- The whitespace class used by JS `String.prototype.trim` and by the
regex class for whitespace (the same set, WhiteSpace + LineTerminator). -/
def isJsWhitespace (c : Char) : Bool :=
  c == ' ' || c == '\t' || c == '\n' || c == '\r' ||
  c == '\x0b' || c == '\x0c' || c == '\u00A0' || c == '\u1680' ||
  ('\u2000' ≤ c && c ≤ '\u200A') || c == '\u2028' || c == '\u2029' ||
  c == '\u202F' || c == '\u205F' || c == '\u3000' || c == '\uFEFF'

/-- JS `s.trim()`: remove leading and trailing whitespace. -/
def jsTrimList (l : List Char) : List Char :=
  ((l.dropWhile isJsWhitespace).reverse.dropWhile isJsWhitespace).reverse

/-- JS `s.split(sep)` for a single-character separator: keeps empty
segments, never returns an empty list. -/
def splitChar (sep : Char) : List Char → List (List Char)
  | [] => [[]]
  | c :: cs =>
    match splitChar sep cs with
    | [] => [[c]]
    | g :: gs => if c == sep then [] :: g :: gs else (c :: g) :: gs

/-- JS `s.startsWith(p)` on character lists: does the second list begin
with the first one? -/
def beginsWith : List Char → List Char → Bool
  | [], _ => true
  | _ :: _, [] => false
  | p :: ps, c :: cs => p == c && beginsWith ps cs

/-! ## Table sub-parser (`parseTableData`, src lines 29-59) -/

/-- Result of `parseTableData`: header cells and data-row cells. -/
structure TableData where
  headers : List String
  rows : List (List String)
deriving DecidableEq, Repr

/-- `line.split('|').map(h => h.trim())` — the cell extraction used both
for the header line and for every data row. -/
def headerCells (l : List Char) : List String :=
  (splitChar '|' l).map (fun c => String.mk (jsTrimList c))

/-- The `while (rowData.length < headers.length) rowData.push('')`
padding loop: right-pad with empty strings up to length `n`
(a row that is already long enough is returned unchanged). -/
def padRow (row : List String) (n : Nat) : List String :=
  row ++ List.replicate (n - row.length) ""

/-- `tableContent.trim().split('\n').filter(line => line.trim())`:
the non-blank lines of the (trimmed) table body. -/
def nonBlankLines (l : List Char) : List (List Char) :=
  (splitChar '\n' (jsTrimList l)).filter (fun x => !(jsTrimList x).isEmpty)

/-- `parseTableData` (src lines 29-59): fewer than 2 non-blank lines is
a failure (`none`); otherwise line 1 gives the headers, line 2 (the
separator) is skipped unconditionally, lines 3.. are data rows padded
to the header width. -/
def parseTableDataL (l : List Char) : Option TableData :=
  match nonBlankLines l with
  | l0 :: _ :: rest =>
    some { headers := headerCells l0,
           rows := rest.map (fun line => padRow (headerCells line) (headerCells l0).length) }
  | _ => none

/-- `parseTableData` on Lean strings. -/
def parseTableData (s : String) : Option TableData :=
  parseTableDataL s.data

example : parseTableData "a | b | c\n---\n1 | 2" =
    some { headers := ["a", "b", "c"], rows := [["1", "2", ""]] } := by decide

example : parseTableData "only | one" = none := by decide

example : parseTableData " h1 | h2 \n---" =
    some { headers := ["h1", "h2"], rows := [] } := by decide

/-! ## Block scanner of `renderContent` (src lines 67-208)

The JS loop repeatedly applies the global regex for bracketed blocks
(an opening marker made of an uppercase tag with an optional
alphanumeric parameter, a non-greedy dot-all body, and a closing
marker for the same tag via a backreference).  Operationally that is:
scan left to right; at each position, if an opening marker starts here
and the exact same-tag closing marker occurs later, the match extends
to the *first* such closing marker (non-greedy body, backreference) —
otherwise move on one character. -/

/-- One character of an uppercase tag name (regex class `A-Z`). -/
def isUpperAlpha (c : Char) : Bool := 'A' ≤ c && c ≤ 'Z'

/-- One character of a tag parameter (regex class for alphanumerics,
underscore and hyphen). -/
def isParamChar (c : Char) : Bool :=
  ('a' ≤ c && c ≤ 'z') || ('A' ≤ c && c ≤ 'Z') || ('0' ≤ c && c ≤ '9') ||
  c == '_' || c == '-'

/-- The text of the optional `=param` part of an opening marker. -/
def paramPart : Option (List Char) → List Char
  | none => []
  | some p => '=' :: p

/-- The text of an opening marker `[TAG]` / `[TAG=param]`. -/
def openMarker (tag : List Char) (param : Option (List Char)) : List Char :=
  '[' :: (tag ++ paramPart param ++ (']' :: []))

/-- The text of the closing marker `[/TAG]` for a tag. -/
def closerOf (tag : List Char) : List Char :=
  '[' :: '/' :: (tag ++ (']' :: []))

/-- Parse an opening marker at the head of the input: `[`, a maximal
nonempty run of uppercase letters, optionally `=` and a maximal
nonempty run of parameter characters, then `]`.  Returns the tag, the
optional parameter and the input past the marker.  (Maximality is
faithful to the greedy regex classes: backtracking into the tag or the
parameter can never help, since the follow-up character would again be
a class character and not `=` or `]`.) -/
def readOpen (l : List Char) : Option (List Char × Option (List Char) × List Char) :=
  match l with
  | [] => none
  | c0 :: rest =>
    if c0 = '[' then
      match rest.takeWhile isUpperAlpha, rest.dropWhile isUpperAlpha with
      | t0 :: ts, d :: r2 =>
        if d = ']' then some (t0 :: ts, none, r2)
        else if d = '=' then
          match r2.takeWhile isParamChar, r2.dropWhile isParamChar with
          | p0 :: ps, e :: r4 =>
            if e = ']' then some (t0 :: ts, some (p0 :: ps), r4)
            else none
          | _, _ => none
        else none
      | _, _ => none
    else none

/-- Find the first occurrence of `closer` in the input; return the text
before it (the non-greedy body) and the text after it. -/
def findCloser (closer : List Char) : List Char → Option (List Char × List Char)
  | [] => none
  | c :: cs =>
    if beginsWith closer (c :: cs) then some ([], (c :: cs).drop closer.length)
    else
      match findCloser closer cs with
      | some (b, r) => some (c :: b, r)
      | none => none

/-- One regex match: tag name, optional parameter, body, and the full
matched text (JS `match[0]`). -/
structure BlockMatch where
  tag : List Char
  param : Option (List Char)
  body : List Char
  full : List Char
deriving DecidableEq, Repr

/-- Prepend a character to the gap text before the first match (or to
the trailing text if there is no match). -/
def prependGap (c : Char) (p : List (List Char × BlockMatch) × List Char) :
    List (List Char × BlockMatch) × List Char :=
  match p with
  | ([], tr) => ([], c :: tr)
  | ((g, m) :: ms, tr) => ((c :: g, m) :: ms, tr)

/-- Fuelled scanner: returns the list of matches, each paired with the
raw gap text preceding it, plus the trailing gap text after the last
match.  One unit of fuel is spent per character position, so fuel
`l.length` always suffices. -/
def scanFuel : Nat → List Char → List (List Char × BlockMatch) × List Char
  | 0, l => ([], l)
  | _ + 1, [] => ([], [])
  | f + 1, c :: cs =>
    match readOpen (c :: cs) with
    | some (tag, param, afterOpen) =>
      match findCloser (closerOf tag) afterOpen with
      | some (body, rest) =>
        (([], { tag := tag, param := param, body := body,
                full := openMarker tag param ++ body ++ closerOf tag }) ::
           (scanFuel f rest).1,
         (scanFuel f rest).2)
      | none => prependGap c (scanFuel f cs)
    | none => prependGap c (scanFuel f cs)

/-- The block-level scan of `renderContent`'s regex loop. -/
def scan (l : List Char) : List (List Char × BlockMatch) × List Char :=
  scanFuel l.length l

/-! ### Block dispatch (the body of the `while` loop, src lines 108-192) -/

/-- Diagnostic severity of an `Unrecognized` render block: a table body
that fails to parse is an error, an unknown tag name a warning. -/
inductive Severity where
  | error
  | warning
deriving DecidableEq, Repr

/-- The render blocks produced for a card side.  A `textRun` records the
trimmed plain-text segment handed to `renderText` (one paragraph node
per non-empty segment; the inline-code alternation inside the
paragraph is presentation detail not needed by any claim). -/
inductive RenderBlock where
  | textRun (text : String)
  | table (headers : List String) (rows : List (List String))
  | codeBlock (language : Option String) (text : String)
  | unrecognized (raw : String) (severity : Severity)
deriving DecidableEq, Repr

/-- The text stored for a CODE block (src lines 163-175):
`blockContent.trim()`, and when the parameter lower-cases to `sql` and
the lowered text starts with the four characters `sql ` (the letters
and a space), the regex for a leading case-insensitive `sql` plus a
whitespace run is stripped.  (Under that guard the inner regex re-check
of the source always succeeds, since character 3 is a space.) -/
def codeTextOf (param : Option (List Char)) (body : List Char) : List Char :=
  let codeText := jsTrimList body
  match param with
  | none => codeText
  | some p =>
    if (p.map Char.toLower == ('s' :: 'q' :: 'l' :: [])) &&
        beginsWith ('s' :: 'q' :: 'l' :: ' ' :: []) (codeText.map Char.toLower) then
      (codeText.drop 3).dropWhile isJsWhitespace
    else codeText

/-- Dispatch of one matched block on its tag name (src lines 118-190):
TABLE bodies go to the table sub-parser (failure renders the full
matched text as an error diagnostic), CODE bodies become code blocks
with the lower-cased parameter as language, and any other tag renders
the full matched text as a warning diagnostic. -/
def blockOf (m : BlockMatch) : RenderBlock :=
  if m.tag = ('T' :: 'A' :: 'B' :: 'L' :: 'E' :: []) then
    match parseTableDataL m.body with
    | some td => RenderBlock.table td.headers td.rows
    | none => RenderBlock.unrecognized (String.mk m.full) Severity.error
  else if m.tag = ('C' :: 'O' :: 'D' :: 'E' :: []) then
    RenderBlock.codeBlock (m.param.map (fun p => String.mk (p.map Char.toLower)))
      (String.mk (codeTextOf m.param m.body))
  else
    RenderBlock.unrecognized (String.mk m.full) Severity.warning

/-- `renderText` on a gap: trim it; an empty result renders nothing,
anything else renders exactly one paragraph block. -/
def textOf (gap : List Char) : List RenderBlock :=
  if (jsTrimList gap).isEmpty then []
  else [RenderBlock.textRun (String.mk (jsTrimList gap))]

/-- Assemble the render-block list from the scan result, mirroring the
loop: the gap before each match, then the dispatched block; finally the
trailing gap. -/
def assemble : List (List Char × BlockMatch) → List Char → List RenderBlock
  | [], trailing => textOf trailing
  | (gap, m) :: ms, trailing => textOf gap ++ (blockOf m :: assemble ms trailing)

/-- `parse`: the pure content-to-blocks function of `renderContent`
(src lines 67-199), DOM side effects elided. -/
def parse (content : String) : List RenderBlock :=
  assemble (scan content.data).1 (scan content.data).2

example : parse "[CODE=sql]sql SELECT 1[/CODE]" =
    [RenderBlock.codeBlock (some "sql") "SELECT 1"] := by decide

example : parse "[CODE=sql]SELECT 1[/CODE]" =
    [RenderBlock.codeBlock (some "sql") "SELECT 1"] := by decide

example : parse "[FOO]x[/FOO]" =
    [RenderBlock.unrecognized "[FOO]x[/FOO]" Severity.warning] := by decide

example : parse "[TABLE]x[/TABLE]" =
    [RenderBlock.unrecognized "[TABLE]x[/TABLE]" Severity.error] := by decide

example : parse "hi [TABLE]a|b\n-\n1[/TABLE] bye" =
    [RenderBlock.textRun "hi",
     RenderBlock.table ["a", "b"] [["1", ""]],
     RenderBlock.textRun "bye"] := by decide

example : parse "[CODE]x[TABLE]y[/TABLE]z[/CODE]" =
    [RenderBlock.codeBlock none "x[TABLE]y[/TABLE]z"] := by decide

example : parse "" = [] := by decide

/-! ## Review-session state machine (src lines 210-396)

The page state is the module-level variables (`cards`,
`currentCardIndex`, `isBackVisible`) together with the DOM flags the
handlers read and write (visibility of the action button, the rating
buttons, the controls container, the study area, the session-complete
panel and the error message, plus the disabled state of the buttons).
A button click can only fire its handler while the button is rendered
enabled and its listeners are attached, which is how the source guards
`handleRatingClick`. -/

/-- A due card as consumed by the session (identifier and the two raw
markup sides). -/
structure Card where
  id : Nat
  front_content : String
  back_content : String
deriving DecidableEq, Repr

/-- One POST to `/api/cards/review`: the payload `{card_id, rating}`. -/
structure Submission where
  card_id : Nat
  rating : String
deriving DecidableEq, Repr

/-- The observable page state. -/
structure StudyState where
  cards : List Card
  currentCardIndex : Nat
  isBackVisible : Bool
  actionBtnVisible : Bool
  actionBtnEnabled : Bool
  ratingVisible : Bool
  ratingEnabled : Bool
  controlsVisible : Bool
  studyAreaVisible : Bool
  completeVisible : Bool
  errorVisible : Bool
  listenersAttached : Bool
deriving DecidableEq, Repr

/-- `loadCard(cardIndex)` (src lines 221-252).  Past the end of the
deck: hide the study area and the controls and show the completion
panel (nothing else is touched).  Otherwise: clear the reveal flag,
hide and re-enable the rating buttons, show and enable the action
button. -/
def loadCard (s : StudyState) (i : Nat) : StudyState :=
  if s.cards.length ≤ i then
    { s with studyAreaVisible := false, controlsVisible := false,
             completeVisible := true }
  else
    { s with isBackVisible := false,
             ratingVisible := false, ratingEnabled := true,
             actionBtnVisible := true, actionBtnEnabled := true }

/-- `handleActionClick` (src lines 255-271): a no-op when the back is
already visible; otherwise reveal the back and swap the action button
for the rating buttons. -/
def handleActionClick (s : StudyState) : StudyState :=
  if s.isBackVisible then s
  else { s with isBackVisible := true, actionBtnVisible := false,
                ratingVisible := true }

/-- `handleRatingClick(rating)` (src lines 274-321), with the awaited
submission outcome passed in as `ok` (the scheduling model of the spec
runs one submission at a time, so the handler is one atomic step).
Looks up the current card (the source reads `card.id` in a log line
before its own `!card` guard; that state is unreachable — theorem C9 —
and both behaviours are "no effect", which is how the miss is
modelled).  It disables the rating buttons, posts the review, and on
success advances the index and loads the next card; on failure it
shows the error message and re-enables the rating buttons. -/
def handleRatingClick (s : StudyState) (rating : String) (ok : Bool) :
    StudyState × List Submission :=
  match s.cards.get? s.currentCardIndex with
  | none => (s, [])
  | some card =>
    let s1 := { s with ratingEnabled := false }
    if ok then
      let s2 := { s1 with currentCardIndex := s1.currentCardIndex + 1 }
      (loadCard s2 s2.currentCardIndex, [{ card_id := card.id, rating := rating }])
    else
      ({ s1 with errorVisible := true, ratingEnabled := true },
       [{ card_id := card.id, rating := rating }])

/-- The card `handleRatingClick` submits: the one at the current index
(total version via a default, used only where the index is in range). -/
def cardAt (s : StudyState) : Card :=
  (s.cards.get? s.currentCardIndex).getD { id := 0, front_content := "", back_content := "" }

/-- The two user events the session reacts to. -/
inductive Ev where
  | actionClick
  | ratingClick (rating : String) (ok : Bool)

/-- A click on the action button reaches its handler only while the
listeners are attached and the button is rendered enabled. -/
def revealClickable (s : StudyState) : Bool :=
  s.listenersAttached && s.actionBtnVisible && s.actionBtnEnabled

/-- A click on a rating button reaches `handleRatingClick` only while
the listeners are attached and the buttons are rendered enabled. -/
def rateClickable (s : StudyState) : Bool :=
  s.listenersAttached && s.ratingVisible && s.ratingEnabled

/-- One event step: run the handler when the clicked button is
clickable, otherwise nothing happens.  Returns the new state and the
submissions issued during the step. -/
def step (s : StudyState) (e : Ev) : StudyState × List Submission :=
  match e with
  | Ev.actionClick =>
    if revealClickable s then (handleActionClick s, []) else (s, [])
  | Ev.ratingClick r ok =>
    if rateClickable s then handleRatingClick s r ok else (s, [])

/-- Run a list of events, collecting all submissions in order. -/
def run (s : StudyState) : List Ev → StudyState × List Submission
  | [] => (s, [])
  | e :: es =>
    ((run (step s e).1 es).1, (step s e).2 ++ (run (step s e).1 es).2)

/-! ### Shuffling (src lines 212-219) -/

/-- Exchange the elements at positions `i` and `j` (identity when
either index is out of range — never the case in the shuffle loop). -/
def swapAt (l : List Card) (i j : Nat) : List Card :=
  match l.get? i, l.get? j with
  | some x, some y => (l.set i y).set j x
  | _, _ => l

/-- The Fisher-Yates loop `for (i = len-1; i > 0; i--)`, with the
random draw `Math.floor(Math.random() * (i + 1))` supplied by `rnd`
(reduced into the required range `0..i`). -/
def fyLoop (rnd : Nat → Nat) : List Card → Nat → List Card
  | a, 0 => a
  | a, i + 1 => fyLoop rnd (swapAt a (i + 1) (rnd (i + 1) % (i + 2))) i

/-- `shuffleArray` (src lines 212-219). -/
def shuffleArray (rnd : Nat → Nat) (a : List Card) : List Card :=
  fyLoop rnd a (a.length - 1)

/-! ### Session setup (src lines 323-396) -/

/-- Modelled from the spec: the initial DOM state of the study page.
The page's HTML file is not under src/ (only the script is), so the
initial visibility flags follow the spec's `Loading`/`Presenting`
description: study area and controls shown, action button shown and
enabled, rating buttons hidden, completion panel and error message
hidden, nothing revealed, no listeners attached yet.  (Every flag a
claim depends on is overwritten by `loadCard` before any event can
fire, so no claim rests on these defaults.) -/
def domInitial : StudyState :=
  { cards := [], currentCardIndex := 0, isBackVisible := false,
    actionBtnVisible := true, actionBtnEnabled := true,
    ratingVisible := false, ratingEnabled := true,
    controlsVisible := true, studyAreaVisible := true,
    completeVisible := false, errorVisible := false,
    listenersAttached := false }

/-- The success path of the session setup (src lines 323-396) after the
due cards have arrived: an empty list shows the caught-up panel and
returns without attaching listeners; otherwise the deck is shuffled,
the index reset to 0, the first card loaded and the listeners
attached. -/
def initSession (rnd : Nat → Nat) (cs : List Card) : StudyState :=
  if cs.isEmpty then
    { domInitial with
      cards := cs,
      studyAreaVisible := false, controlsVisible := false,
      completeVisible := true }
  else
    { (loadCard { domInitial with cards := shuffleArray rnd cs } 0) with
      listenersAttached := true }

/-- The scripted reveal-then-rate run of the session property: one
action click and one successful rating click per rating in `rs`. -/
def script (rs : List String) : List Ev :=
  rs.flatMap (fun r => [Ev.actionClick, Ev.ratingClick r true])

example :
    (run (initSession (fun _ => 0) [{ id := 5, front_content := "f", back_content := "b" }])
      (script ["good"])) =
    ({ cards := [{ id := 5, front_content := "f", back_content := "b" }],
       currentCardIndex := 1, isBackVisible := true,
       actionBtnVisible := false, actionBtnEnabled := true,
       ratingVisible := true, ratingEnabled := false,
       controlsVisible := false, studyAreaVisible := false,
       completeVisible := true, errorVisible := false,
       listenersAttached := true },
     [{ card_id := 5, rating := "good" }]) := by decide

/-! ## Helper lemmas -/

lemma padRow_length (row : List String) (n : Nat) :
    (padRow row n).length = max row.length n := by
  simp [padRow]
  omega

lemma padRow_of_le (row : List String) (n : Nat) (h : n ≤ row.length) :
    padRow row n = row := by
  simp [padRow, Nat.sub_eq_zero_of_le h]

lemma assemble_length (ms : List (List Char × BlockMatch)) (tr : List Char) :
    (assemble ms tr).length =
      ms.length + (ms.map Prod.fst ++ [tr]).countP (fun g => !(jsTrimList g).isEmpty) := by
  induction ms with
  | nil =>
    by_cases h : (jsTrimList tr).isEmpty <;>
      simp [assemble, textOf, h, List.countP_cons]
  | cons gm ms ih =>
    obtain ⟨gap, m⟩ := gm
    by_cases h : (jsTrimList gap).isEmpty <;>
      simp [assemble, textOf, h, List.countP_cons, ih] <;> omega

/-! ## The claims -/

/-- C3: every data row that splits shorter than the header is
right-padded with empty strings to exactly the header length, longer
rows are kept unmodified, so every parsed row is at least as long as
the header; the concrete padding example of the spec holds. -/
theorem C3 :
    (∀ (s : String) (td : TableData), parseTableData s = some td →
      ∀ r ∈ td.rows, td.headers.length ≤ r.length) ∧
    (∀ (row : List String) (n : Nat), n ≤ row.length → padRow row n = row) ∧
    (∀ (row : List String) (n : Nat), (padRow row n).length = max row.length n) ∧
    parseTableData "a | b | c\n---\n1 | 2" =
      some { headers := ["a", "b", "c"], rows := [["1", "2", ""]] } := by
  refine ⟨?_, padRow_of_le, padRow_length, by decide⟩
  intro s td hp r hr
  rcases hnl : nonBlankLines s.data with _ | ⟨l0, _ | ⟨l1, rest⟩⟩ <;>
    simp [parseTableData, parseTableDataL, hnl] at hp
  subst hp
  simp only [List.mem_map] at hr
  obtain ⟨line, -, hline⟩ := hr
  rw [← hline, padRow_length]
  simp

/-- C3 witness: the theorem applied to the spec's concrete table. -/
theorem C3_witness :
    ((3 : Nat) ≤ (["1", "2", ""] : List String).length) ∧
    padRow ["x", "y"] 2 = ["x", "y"] :=
  ⟨C3.1 "a | b | c\n---\n1 | 2"
      { headers := ["a", "b", "c"], rows := [["1", "2", ""]] } (by decide)
      ["1", "2", ""] (by decide),
   C3.2.1 ["x", "y"] 2 (by decide)⟩

/-- C4: a TABLE body with fewer than 2 non-blank lines makes the table
sub-parser fail with no partial value, and the enclosing parse then
emits exactly one error-severity Unrecognized block carrying the full
matched text — never a Table block. -/
theorem C4 :
    (∀ s : String, (nonBlankLines s.data).length < 2 → parseTableData s = none) ∧
    (∀ m : BlockMatch, m.tag = ('T' :: 'A' :: 'B' :: 'L' :: 'E' :: []) →
      parseTableDataL m.body = none →
      blockOf m = RenderBlock.unrecognized (String.mk m.full) Severity.error) ∧
    parse "[TABLE]one line only[/TABLE]" =
      [RenderBlock.unrecognized "[TABLE]one line only[/TABLE]" Severity.error] := by
  refine ⟨?_, ?_, by decide⟩
  · intro s h
    rcases hnl : nonBlankLines s.data with _ | ⟨l0, _ | ⟨l1, rest⟩⟩ <;>
      simp [parseTableData, parseTableDataL, hnl]
    rw [hnl] at h
    simp at h
    omega
  · intro m h1 h2
    simp [blockOf, h1, h2]

/-- C4 witness: the theorem applied to one-line bodies. -/
theorem C4_witness :
    parseTableData "just one" = none ∧
    blockOf { tag := ('T' :: 'A' :: 'B' :: 'L' :: 'E' :: []),
              param := none, body := ('x' :: []),
              full := ('y' :: []) } =
      RenderBlock.unrecognized (String.mk ('y' :: [])) Severity.error :=
  ⟨C4.1 "just one" (by decide),
   C4.2.1 { tag := ('T' :: 'A' :: 'B' :: 'L' :: 'E' :: []),
            param := none, body := ('x' :: []), full := ('y' :: []) }
     (by decide) (by decide)⟩

/-- C10: a TABLE body with exactly 2 non-blank lines (header and
separator) parses successfully into a Table with the split-and-trimmed
header cells and an empty row list. -/
theorem C10 (s : String) (l0 l1 : List Char)
    (h : nonBlankLines s.data = [l0, l1]) :
    parseTableData s = some { headers := headerCells l0, rows := [] } := by
  simp [parseTableData, parseTableDataL, h]

/-- C10 witness: a concrete header-plus-separator body. -/
theorem C10_witness :
    parseTableData " h1 | h2 \n---" =
      some { headers := headerCells ("h1 | h2 ".data), rows := [] } :=
  C10 " h1 | h2 \n---" ("h1 | h2 ".data) ("---".data) (by decide)

/-- C2: for every input, the number of parsed blocks equals the number
of scanner matches plus the number of gap texts (before, between and
after the matches) that are non-empty after trimming.  (Proved for all
inputs, hence in particular for the balanced ones of the claim.) -/
theorem C2 (content : String) :
    (parse content).length =
      (scan content.data).1.length +
      ((scan content.data).1.map Prod.fst ++ [(scan content.data).2]).countP
        (fun g => !(jsTrimList g).isEmpty) :=
  assemble_length (scan content.data).1 (scan content.data).2

/-- C5 counterexample: the source only strips the duplicated language
prefix when the character after `sql` is a space (U+0020).  A tab is
whitespace and satisfies the claim's premise, yet nothing is
stripped. -/
theorem C5_counterexample :
    parse "[CODE=sql]sql\tSELECT 1[/CODE]" =
      [RenderBlock.codeBlock (some "sql") "sql\tSELECT 1"] ∧
    jsTrimList ("sql\tSELECT 1".data) = ("sql\tSELECT 1".data) ∧
    beginsWith ('s' :: 'q' :: 'l' :: []) (("sql\tSELECT 1".data).map Char.toLower) = true ∧
    isJsWhitespace '\t' = true ∧
    ("sql\tSELECT 1" : String) ≠ "SELECT 1" :=
  ⟨by decide, by decide, by decide, by decide, by decide⟩

/-- C5 (amended): for every parameter that lower-cases to `sql`, the
prefix is stripped exactly when the lower-cased trimmed body starts
with the letters `sql` followed by a space character; then `sql` and
the whole following whitespace run are removed.  Both concrete
examples of the claim yield `CodeBlock sql "SELECT 1"`, as does a
case-variant parameter `[CODE=SQL]`. -/
theorem C5_amended :
    (∀ (p body : List Char),
      p.map Char.toLower = ('s' :: 'q' :: 'l' :: []) →
      beginsWith ('s' :: 'q' :: 'l' :: ' ' :: []) ((jsTrimList body).map Char.toLower) = true →
      codeTextOf (some p) body =
        ((jsTrimList body).drop 3).dropWhile isJsWhitespace) ∧
    parse "[CODE=sql]sql SELECT 1[/CODE]" =
      [RenderBlock.codeBlock (some "sql") "SELECT 1"] ∧
    parse "[CODE=sql]SELECT 1[/CODE]" =
      [RenderBlock.codeBlock (some "sql") "SELECT 1"] ∧
    parse "[CODE=SQL]sql SELECT 1[/CODE]" =
      [RenderBlock.codeBlock (some "sql") "SELECT 1"] := by
  refine ⟨?_, by decide, by decide, by decide⟩
  intro p body hp h
  simp [codeTextOf, hp, h]

/-- C5 witness: the strip rule applied with an upper-case parameter and
a body with extra interior whitespace after the duplicated prefix. -/
theorem C5_amended_witness :
    codeTextOf (some ('S' :: 'Q' :: 'L' :: [])) ("sql   SELECT 2".data) =
      ((jsTrimList ("sql   SELECT 2".data)).drop 3).dropWhile isJsWhitespace :=
  C5_amended.1 ('S' :: 'Q' :: 'L' :: []) ("sql   SELECT 2".data) (by decide) (by decide)

/-! ## Scanner lemmas for C6 -/

lemma dropWhile_length_le (p : Char → Bool) (l : List Char) :
    (l.dropWhile p).length ≤ l.length := by
  induction l with
  | nil => simp
  | cons c cs ih =>
    by_cases h : p c
    · simp [List.dropWhile, h]
      omega
    · simp [List.dropWhile, h]

lemma takeWhile_all_append (p : Char → Bool) (t : List Char) (c : Char) (x : List Char)
    (ht : t.all p = true) (hc : p c = false) :
    (t ++ c :: x).takeWhile p = t ∧ (t ++ c :: x).dropWhile p = c :: x := by
  induction t with
  | nil => simp [List.takeWhile, List.dropWhile, hc]
  | cons a t ih =>
    simp only [List.all_cons, Bool.and_eq_true] at ht
    have := ih ht.2
    simp [List.takeWhile, List.dropWhile, ht.1, this.1, this.2]

lemma readOpen_marker (tag : List Char) (param : Option (List Char)) (x : List Char)
    (h1 : tag ≠ []) (h2 : tag.all isUpperAlpha = true)
    (h3 : ∀ p, param = some p → p ≠ [] ∧ p.all isParamChar = true) :
    readOpen (openMarker tag param ++ x) = some (tag, param, x) := by
  rcases htag : tag with - | ⟨t0, ts⟩
  · exact absurd htag h1
  subst htag
  cases param with
  | none =>
    have hmk : openMarker (t0 :: ts) none ++ x = '[' :: ((t0 :: ts) ++ (']' :: x)) := by
      simp [openMarker, paramPart]
    have hcl : isUpperAlpha ']' = false := by decide
    obtain ⟨htk, hdr⟩ := takeWhile_all_append isUpperAlpha (t0 :: ts) ']' x h2 hcl
    rw [hmk]
    unfold readOpen
    dsimp only
    rw [if_pos rfl, htk, hdr]
    dsimp only
    rw [if_pos rfl]
  | some p =>
    obtain ⟨hp1, hp2⟩ := h3 p rfl
    rcases hpp : p with - | ⟨p0, ps⟩
    · exact absurd hpp hp1
    subst hpp
    have hmk : openMarker (t0 :: ts) (some (p0 :: ps)) ++ x =
        '[' :: ((t0 :: ts) ++ ('=' :: ((p0 :: ps) ++ (']' :: x)))) := by
      simp [openMarker, paramPart]
    have hce : isUpperAlpha '=' = false := by decide
    have hcb : isParamChar ']' = false := by decide
    obtain ⟨htk, hdr⟩ :=
      takeWhile_all_append isUpperAlpha (t0 :: ts) '=' ((p0 :: ps) ++ (']' :: x)) h2 hce
    obtain ⟨htk2, hdr2⟩ := takeWhile_all_append isParamChar (p0 :: ps) ']' x hp2 hcb
    rw [hmk]
    unfold readOpen
    dsimp only
    rw [if_pos rfl, htk, hdr]
    dsimp only
    rw [if_neg (by decide), if_pos rfl, htk2, hdr2]
    dsimp only
    rw [if_pos rfl]

lemma beginsWith_append_self (l x : List Char) : beginsWith l (l ++ x) = true := by
  induction l with
  | nil => simp [beginsWith]
  | cons c cs ih => simp [beginsWith, ih]

lemma findCloser_exact (closer body rest : List Char) (hne : closer ≠ [])
    (hfirst : ∀ i, i < body.length →
      beginsWith closer ((body ++ closer ++ rest).drop i) = false) :
    findCloser closer (body ++ closer ++ rest) = some (body, rest) := by
  induction body with
  | nil =>
    rcases hc : closer with _ | ⟨c, cs⟩
    · exact absurd hc hne
    · rw [← hc]
      show findCloser closer (closer ++ rest) = some ([], rest)
      rcases hl : closer ++ rest with _ | ⟨d, ds⟩
      · rcases hc ▸ congrArg List.length hl with h
        simp at h
      · rw [← hl]
        have hb : beginsWith closer (closer ++ rest) = true :=
          beginsWith_append_self closer rest
        rw [hl] at hb ⊢
        simp only [findCloser, hb, if_true]
        rw [← hl, List.drop_left]
    -- the nil case of the induction is finished in both subcases above
  | cons b body ih =>
    have h0 := hfirst 0 (by simp)
    simp only [List.drop_zero] at h0
    have hrest : ∀ i, i < body.length →
        beginsWith closer ((body ++ closer ++ rest).drop i) = false := by
      intro i hi
      have := hfirst (i + 1) (by simp; omega)
      simpa using this
    have hin := ih hrest
    show findCloser closer (b :: (body ++ closer ++ rest)) = some (b :: body, rest)
    have h0' : beginsWith closer (b :: (body ++ closer ++ rest)) = false := by
      simpa using h0
    simp only [findCloser, h0', if_false, Bool.false_eq_true, hin]

lemma readOpen_len (l tag : List Char) (param : Option (List Char)) (after : List Char)
    (h : readOpen l = some (tag, param, after)) : after.length < l.length := by
  unfold readOpen at h
  split at h
  case h_1 => simp at h
  case h_2 c0 rest =>
    split at h
    case isFalse => simp at h
    case isTrue hc =>
      split at h
      case h_2 => simp at h
      case h_1 t0 ts d r2 htk hdr =>
        have hlen : (d :: r2).length ≤ rest.length := by
          rw [← hdr]
          exact dropWhile_length_le isUpperAlpha rest
        split at h
        case isTrue hd =>
          simp only [Option.some.injEq, Prod.mk.injEq] at h
          obtain ⟨-, -, h3⟩ := h
          subst h3
          simp at hlen ⊢
          omega
        case isFalse hd =>
          split at h
          case isFalse => simp at h
          case isTrue hd2 =>
            split at h
            case h_2 => simp at h
            case h_1 p0 ps e r4 htk2 hdr2 =>
              have hlen2 : (e :: r4).length ≤ r2.length := by
                rw [← hdr2]
                exact dropWhile_length_le isParamChar r2
              split at h
              case isFalse => simp at h
              case isTrue he =>
                simp only [Option.some.injEq, Prod.mk.injEq] at h
                obtain ⟨-, -, h3⟩ := h
                subst h3
                simp at hlen hlen2 ⊢
                omega

lemma findCloser_len (closer l b r : List Char)
    (h : findCloser closer l = some (b, r)) : r.length ≤ l.length := by
  induction l generalizing b with
  | nil => simp [findCloser] at h
  | cons c cs ih =>
    unfold findCloser at h
    split at h
    · simp only [Option.some.injEq, Prod.mk.injEq] at h
      obtain ⟨-, h2⟩ := h
      subst h2
      simp [List.length_drop]
    · split at h
      · rename_i b' r' heq
        simp only [Option.some.injEq, Prod.mk.injEq] at h
        obtain ⟨-, h2⟩ := h
        subst h2
        have := ih b' heq
        simp
        omega
      · simp at h

lemma scanFuel_eq (f g : Nat) (l : List Char) (hf : l.length ≤ f) (hg : l.length ≤ g) :
    scanFuel f l = scanFuel g l := by
  induction f generalizing g l with
  | zero =>
    have : l = [] := by
      cases l with
      | nil => rfl
      | cons c cs => simp at hf
    subst this
    cases g <;> rfl
  | succ f ih =>
    cases l with
    | nil => cases g <;> rfl
    | cons c cs =>
      cases g with
      | zero => simp at hg
      | succ g =>
        simp only [List.length_cons, Nat.succ_le_succ_iff] at hf hg
        show scanFuel (f + 1) (c :: cs) = scanFuel (g + 1) (c :: cs)
        rcases hro : readOpen (c :: cs) with - | ⟨tag, param, after⟩
        · simp only [scanFuel, hro]
          rw [ih g cs hf hg]
        · rcases hfc : findCloser (closerOf tag) after with - | ⟨body, rest⟩
          · simp only [scanFuel, hro, hfc]
            rw [ih g cs hf hg]
          · have ha : after.length < (c :: cs).length := readOpen_len _ _ _ _ hro
            have hr : rest.length ≤ after.length := findCloser_len _ _ _ _ hfc
            simp only [List.length_cons] at ha
            simp only [scanFuel, hro, hfc]
            rw [ih g rest (by omega) (by omega)]

lemma scan_match (c : Char) (cs tag after body rest : List Char) (param : Option (List Char))
    (hopen : readOpen (c :: cs) = some (tag, param, after))
    (hclose : findCloser (closerOf tag) after = some (body, rest)) :
    scan (c :: cs) =
      ((([], { tag := tag, param := param, body := body,
               full := openMarker tag param ++ body ++ closerOf tag }) :: (scan rest).1),
       (scan rest).2) := by
  have ha : after.length < (c :: cs).length := readOpen_len _ _ _ _ hopen
  have hr : rest.length ≤ after.length := findCloser_len _ _ _ _ hclose
  simp only [List.length_cons] at ha
  show scanFuel (c :: cs).length (c :: cs) = _
  have hc : (c :: cs).length = cs.length + 1 := by simp
  rw [hc]
  simp only [scanFuel, hopen, hclose]
  rw [scanFuel_eq cs.length rest.length rest (by omega) (le_refl _)]
  rfl

/-- C6: an opening marker is closed only by the first later closing
marker of the very same tag; everything in between — other markers
included — is the block's opaque body, and scanning continues after the
closer, never inside the body.  `h4` says the same-tag closer first
occurs right after `body`; nothing at all is assumed about the markers
`body` may contain. -/
theorem C6 (tag : List Char) (param : Option (List Char)) (body rest : List Char)
    (h1 : tag ≠ []) (h2 : tag.all isUpperAlpha = true)
    (h3 : ∀ p, param = some p → p ≠ [] ∧ p.all isParamChar = true)
    (h4 : ∀ i, i < body.length →
      beginsWith (closerOf tag) ((body ++ closerOf tag ++ rest).drop i) = false) :
    scan (openMarker tag param ++ (body ++ closerOf tag ++ rest)) =
      ((([], { tag := tag, param := param, body := body,
               full := openMarker tag param ++ body ++ closerOf tag }) :: (scan rest).1),
       (scan rest).2) := by
  have hopen := readOpen_marker tag param (body ++ closerOf tag ++ rest) h1 h2 h3
  have hne : closerOf tag ≠ [] := by simp [closerOf]
  have hclose := findCloser_exact (closerOf tag) body rest hne h4
  have hm : openMarker tag param ++ (body ++ closerOf tag ++ rest) =
      '[' :: ((tag ++ paramPart param ++ (']' :: [])) ++ (body ++ closerOf tag ++ rest)) := by
    simp [openMarker]
  rw [hm] at hopen ⊢
  exact scan_match '[' _ tag _ body rest param hopen hclose

/-- C6 witness: a CODE block whose body contains a closing marker of a
different tag and a second same-tag opening marker; both are left
inside the opaque body, and the first same-tag closer ends the
block. -/
theorem C6_witness :
    scan ("[CODE]x[/TABLE][CODE]y[/CODE]z".data) =
      ((([], { tag := ('C' :: 'O' :: 'D' :: 'E' :: []), param := none,
               body := ("x[/TABLE][CODE]y".data),
               full := ("[CODE]x[/TABLE][CODE]y[/CODE]".data) }) :: (scan ("z".data)).1),
       (scan ("z".data)).2) := by
  have h := C6 ('C' :: 'O' :: 'D' :: 'E' :: []) none ("x[/TABLE][CODE]y".data) ("z".data)
    (by decide) (by decide) (by intro p hp; cases hp) (by decide)
  have e1 : openMarker ('C' :: 'O' :: 'D' :: 'E' :: []) none ++
      ("x[/TABLE][CODE]y".data ++ closerOf ('C' :: 'O' :: 'D' :: 'E' :: []) ++ "z".data) =
      ("[CODE]x[/TABLE][CODE]y[/CODE]z".data) := by decide
  have e2 : openMarker ('C' :: 'O' :: 'D' :: 'E' :: []) none ++
      "x[/TABLE][CODE]y".data ++ closerOf ('C' :: 'O' :: 'D' :: 'E' :: []) =
      ("[CODE]x[/TABLE][CODE]y[/CODE]".data) := by decide
  rw [e1, e2] at h
  exact h

/-! ## Shuffle lemmas -/

lemma setPermAux (t : List Card) (k : Nat) (y x : Card) (h : t.get? k = some y) :
    List.Perm (y :: t.set k x) (x :: t) := by
  induction t generalizing k with
  | nil => simp at h
  | cons b t ih =>
    cases k with
    | zero =>
      simp only [List.get?_cons_zero, Option.some.injEq] at h
      subst h
      simp only [List.set_cons_zero]
      exact List.Perm.swap x b t
    | succ k =>
      simp only [List.get?_cons_succ] at h
      have step1 : List.Perm (y :: b :: t.set k x) (b :: y :: t.set k x) :=
        List.Perm.swap b y (t.set k x)
      have step2 : List.Perm (b :: y :: t.set k x) (b :: x :: t) :=
        List.Perm.cons b (ih k h)
      have step3 : List.Perm (b :: x :: t) (x :: b :: t) := List.Perm.swap x b t
      exact (step1.trans step2).trans step3

lemma swap_set_perm (l : List Card) (i j : Nat) (x y : Card)
    (hi : l.get? i = some x) (hj : l.get? j = some y) :
    List.Perm ((l.set i y).set j x) l := by
  induction l generalizing i j with
  | nil => simp at hi
  | cons a t ih =>
    cases i with
    | zero =>
      simp only [List.get?_cons_zero, Option.some.injEq] at hi
      subst hi
      cases j with
      | zero =>
        simp only [List.get?_cons_zero, Option.some.injEq] at hj
        subst hj
        simp
      | succ j =>
        simp only [List.get?_cons_succ] at hj
        simp only [List.set_cons_zero, List.set_cons_succ]
        exact setPermAux t j y a hj
    | succ i =>
      simp only [List.get?_cons_succ] at hi
      cases j with
      | zero =>
        simp only [List.get?_cons_zero, Option.some.injEq] at hj
        subst hj
        simp only [List.set_cons_succ, List.set_cons_zero]
        exact setPermAux t i x a hi
      | succ j =>
        simp only [List.get?_cons_succ] at hj
        simp only [List.set_cons_succ]
        exact List.Perm.cons a (ih i j hi hj)

lemma swapAt_perm (l : List Card) (i j : Nat) : List.Perm (swapAt l i j) l := by
  unfold swapAt
  split
  case h_1 x y hi hj => exact swap_set_perm l i j x y hi hj
  case h_2 => exact List.Perm.refl l

lemma fyLoop_perm (rnd : Nat → Nat) (a : List Card) (n : Nat) :
    List.Perm (fyLoop rnd a n) a := by
  induction n generalizing a with
  | zero => exact List.Perm.refl a
  | succ n ih =>
    exact (ih (swapAt a (n + 1) (rnd (n + 1) % (n + 2)))).trans
      (swapAt_perm a (n + 1) (rnd (n + 1) % (n + 2)))

lemma shuffleArray_perm (rnd : Nat → Nat) (a : List Card) :
    List.Perm (shuffleArray rnd a) a :=
  fyLoop_perm rnd a (a.length - 1)

/-! ## Scripted session run (C1) -/

/-- The state shown while a card's front is presented and nothing is
revealed yet: reveal flag clear, action button shown and enabled,
rating buttons hidden but enabled, listeners attached, completion
panel hidden, and the index in range. -/
def Presenting (s : StudyState) : Prop :=
  s.isBackVisible = false ∧ s.actionBtnVisible = true ∧ s.actionBtnEnabled = true ∧
  s.ratingVisible = false ∧ s.ratingEnabled = true ∧ s.listenersAttached = true ∧
  s.completeVisible = false ∧ s.currentCardIndex < s.cards.length

lemma run_cons (s : StudyState) (e : Ev) (es : List Ev) :
    run s (e :: es) =
      ((run (step s e).1 es).1, (step s e).2 ++ (run (step s e).1 es).2) := rfl

lemma run_script (rs : List String) (s : StudyState)
    (hp : Presenting s) (hlen : s.currentCardIndex + rs.length = s.cards.length) :
    (run s (script rs)).1.completeVisible = true ∧
    (run s (script rs)).1.currentCardIndex = s.cards.length ∧
    (run s (script rs)).1.cards = s.cards ∧
    (run s (script rs)).2.map Submission.card_id =
      (s.cards.drop s.currentCardIndex).map Card.id ∧
    (run s (script rs)).2.length = rs.length := by
  induction rs generalizing s with
  | nil =>
    obtain ⟨-, -, -, -, -, -, -, hlt⟩ := hp
    simp at hlen
    omega
  | cons r rs ih =>
    obtain ⟨hb, hav, hae, hrv, hre, hla, hcv, hlt⟩ := hp
    have hc : s.cards[s.currentCardIndex]? =
        some (s.cards.get ⟨s.currentCardIndex, hlt⟩) := by
      rw [List.getElem?_eq_getElem hlt]
      simp [List.get_eq_getElem]
    have hscript : script (r :: rs) =
        Ev.actionClick :: Ev.ratingClick r true :: script rs := by
      simp [script]
    have e1 : step s Ev.actionClick = ({ s with isBackVisible := true, actionBtnVisible := false, ratingVisible := true }, []) := by
      simp [step, revealClickable, hla, hav, hae, handleActionClick, hb]
    have e2 : step { s with isBackVisible := true, actionBtnVisible := false, ratingVisible := true } (Ev.ratingClick r true) = (loadCard { s with isBackVisible := true, actionBtnVisible := false, ratingVisible := true, ratingEnabled := false, currentCardIndex := s.currentCardIndex + 1 } (s.currentCardIndex + 1), [{ card_id := (s.cards.get ⟨s.currentCardIndex, hlt⟩).id, rating := r }]) := by
      simp [step, rateClickable, hla, hre, handleRatingClick, hc]
    rw [hscript, run_cons, e1]
    dsimp only
    rw [run_cons, e2]
    dsimp only
    rcases Nat.lt_or_ge (s.currentCardIndex + 1) s.cards.length with hlt2 | hge
    · have hload : loadCard { s with isBackVisible := true, actionBtnVisible := false, ratingVisible := true, ratingEnabled := false, currentCardIndex := s.currentCardIndex + 1 } (s.currentCardIndex + 1) = { s with currentCardIndex := s.currentCardIndex + 1 } := by
        simp only [loadCard]
        rw [if_neg (by simp; omega)]
        simp [hb, hav, hae, hrv, hre, hla]
      rw [hload]
      have hp2 : Presenting { s with currentCardIndex := s.currentCardIndex + 1 } :=
        ⟨hb, hav, hae, hrv, hre, hla, hcv, hlt2⟩
      have hlen2 : ({ s with currentCardIndex := s.currentCardIndex + 1 } : StudyState).currentCardIndex + rs.length = ({ s with currentCardIndex := s.currentCardIndex + 1 } : StudyState).cards.length := by
        dsimp only
        simp at hlen
        omega
      obtain ⟨ih1, ih2, ih3, ih4, ih5⟩ := ih _ hp2 hlen2
      dsimp only at ih1 ih2 ih3 ih4 ih5
      refine ⟨ih1, by rw [ih2], by rw [ih3], ?_, by simp [ih5]⟩
      simp only [List.nil_append, List.cons_append, List.map_cons, ih4]
      rw [List.drop_eq_getElem_cons hlt]
      simp only [List.get_eq_getElem, List.map_cons]
    · have heq : s.cards.length = s.currentCardIndex + 1 := by omega
      have hrs : rs = [] := by
        simp at hlen
        have h0 : rs.length = 0 := by omega
        exact List.length_eq_zero.mp h0
      subst hrs
      have hload : loadCard { s with isBackVisible := true, actionBtnVisible := false, ratingVisible := true, ratingEnabled := false, currentCardIndex := s.currentCardIndex + 1 } (s.currentCardIndex + 1) = { s with isBackVisible := true, actionBtnVisible := false, ratingVisible := true, ratingEnabled := false, currentCardIndex := s.currentCardIndex + 1, studyAreaVisible := false, controlsVisible := false, completeVisible := true } := by
        simp only [loadCard]
        rw [if_pos (by omega)]
      rw [hload]
      have hse : script ([] : List String) = [] := rfl
      rw [hse]
      simp only [run]
      refine ⟨by trivial, by simp [heq], by trivial, ?_, by simp⟩
      rw [List.drop_eq_getElem_cons hlt]
      have hdrop : s.cards.drop (s.currentCardIndex + 1) = [] := by
        rw [← heq]
        exact List.drop_length s.cards
      rw [hdrop]
      simp [List.get_eq_getElem]

lemma loadCard_index (t : StudyState) (i : Nat) :
    (loadCard t i).currentCardIndex = t.currentCardIndex := by
  simp only [loadCard]
  split <;> rfl

lemma loadCard_back (t : StudyState) (i : Nat) (h : i < t.cards.length) :
    (loadCard t i).isBackVisible = false := by
  simp only [loadCard]
  rw [if_neg (by omega)]

/-- C1: starting a session on a non-empty deck and scripting
reveal-then-successful-rate once per card reaches the completion state
after exactly N successful ratings; the rated cards are exactly the
shuffled deck in order, which is a permutation of the input containing
every card exactly once; each successful rating advances the index by
exactly one and clears the reveal flag whenever a next card exists. -/
theorem C1 (cs : List Card) (rnd : Nat → Nat) (rs : List String) (s : StudyState) (r : String)
    (h1 : cs ≠ []) (h2 : rs.length = cs.length) (h3 : s.currentCardIndex < s.cards.length) :
    (run (initSession rnd cs) (script rs)).1.completeVisible = true ∧
    (run (initSession rnd cs) (script rs)).1.currentCardIndex = cs.length ∧
    (run (initSession rnd cs) (script rs)).2.length = cs.length ∧
    (run (initSession rnd cs) (script rs)).2.map Submission.card_id =
      (shuffleArray rnd cs).map Card.id ∧
    List.Perm (shuffleArray rnd cs) cs ∧
    (handleRatingClick s r true).1.currentCardIndex = s.currentCardIndex + 1 ∧
    (s.currentCardIndex + 1 < s.cards.length →
      (handleRatingClick s r true).1.isBackVisible = false) := by
  have hperm := shuffleArray_perm rnd cs
  have hlen : (shuffleArray rnd cs).length = cs.length := hperm.length_eq
  have hie : cs.isEmpty = false := by
    cases cs with
    | nil => exact absurd rfl h1
    | cons a t => rfl
  have hlp : ¬ ((shuffleArray rnd cs).length ≤ 0) := by
    rw [hlen]
    have := List.length_pos.mpr h1
    omega
  have hinit : initSession rnd cs = { cards := shuffleArray rnd cs, currentCardIndex := 0, isBackVisible := false, actionBtnVisible := true, actionBtnEnabled := true, ratingVisible := false, ratingEnabled := true, controlsVisible := true, studyAreaVisible := true, completeVisible := false, errorVisible := false, listenersAttached := true } := by
    simp only [initSession, hie, Bool.false_eq_true, if_false, loadCard, domInitial]
    rw [if_neg hlp]
  have hp : Presenting { cards := shuffleArray rnd cs, currentCardIndex := 0, isBackVisible := false, actionBtnVisible := true, actionBtnEnabled := true, ratingVisible := false, ratingEnabled := true, controlsVisible := true, studyAreaVisible := true, completeVisible := false, errorVisible := false, listenersAttached := true } := by
    refine ⟨rfl, rfl, rfl, rfl, rfl, rfl, rfl, ?_⟩
    dsimp only
    rw [hlen]
    exact List.length_pos.mpr h1
  have hlen0 : ({ cards := shuffleArray rnd cs, currentCardIndex := 0, isBackVisible := false, actionBtnVisible := true, actionBtnEnabled := true, ratingVisible := false, ratingEnabled := true, controlsVisible := true, studyAreaVisible := true, completeVisible := false, errorVisible := false, listenersAttached := true } : StudyState).currentCardIndex + rs.length = ({ cards := shuffleArray rnd cs, currentCardIndex := 0, isBackVisible := false, actionBtnVisible := true, actionBtnEnabled := true, ratingVisible := false, ratingEnabled := true, controlsVisible := true, studyAreaVisible := true, completeVisible := false, errorVisible := false, listenersAttached := true } : StudyState).cards.length := by
    dsimp only
    rw [hlen, h2]
    omega
  obtain ⟨ih1, ih2, ih3, ih4, ih5⟩ := run_script rs _ hp hlen0
  dsimp only at ih1 ih2 ih3 ih4 ih5
  rw [hinit]
  have hc : s.cards.get? s.currentCardIndex = some (s.cards.get ⟨s.currentCardIndex, h3⟩) :=
    List.get?_eq_get h3
  refine ⟨ih1, by rw [ih2, hlen], by rw [ih5, h2], ?_, hperm, ?_, ?_⟩
  · rw [ih4]
    simp
  · simp only [handleRatingClick, hc, if_true]
    rw [loadCard_index]
  · intro h4
    simp only [handleRatingClick, hc, if_true]
    exact loadCard_back _ _ (by simpa using h4)

/-- C1 witness: a concrete two-card deck run to completion. -/
theorem C1_witness :
    (run (initSession (fun _ => 0) [{ id := 1, front_content := "f1", back_content := "b1" }, { id := 2, front_content := "f2", back_content := "b2" }]) (script ["good", "easy"])).1.completeVisible = true ∧
    (run (initSession (fun _ => 0) [{ id := 1, front_content := "f1", back_content := "b1" }, { id := 2, front_content := "f2", back_content := "b2" }]) (script ["good", "easy"])).1.currentCardIndex = 2 ∧
    (run (initSession (fun _ => 0) [{ id := 1, front_content := "f1", back_content := "b1" }, { id := 2, front_content := "f2", back_content := "b2" }]) (script ["good", "easy"])).2.length = 2 ∧
    (run (initSession (fun _ => 0) [{ id := 1, front_content := "f1", back_content := "b1" }, { id := 2, front_content := "f2", back_content := "b2" }]) (script ["good", "easy"])).2.map Submission.card_id = (shuffleArray (fun _ => 0) [{ id := 1, front_content := "f1", back_content := "b1" }, { id := 2, front_content := "f2", back_content := "b2" }]).map Card.id ∧
    List.Perm (shuffleArray (fun _ => 0) [{ id := 1, front_content := "f1", back_content := "b1" }, { id := 2, front_content := "f2", back_content := "b2" }]) [{ id := 1, front_content := "f1", back_content := "b1" }, { id := 2, front_content := "f2", back_content := "b2" }] ∧
    (handleRatingClick { cards := [{ id := 1, front_content := "f1", back_content := "b1" }, { id := 2, front_content := "f2", back_content := "b2" }], currentCardIndex := 0, isBackVisible := true, actionBtnVisible := false, actionBtnEnabled := true, ratingVisible := true, ratingEnabled := true, controlsVisible := true, studyAreaVisible := true, completeVisible := false, errorVisible := false, listenersAttached := true } "good" true).1.currentCardIndex = 0 + 1 ∧
    (handleRatingClick { cards := [{ id := 1, front_content := "f1", back_content := "b1" }, { id := 2, front_content := "f2", back_content := "b2" }], currentCardIndex := 0, isBackVisible := true, actionBtnVisible := false, actionBtnEnabled := true, ratingVisible := true, ratingEnabled := true, controlsVisible := true, studyAreaVisible := true, completeVisible := false, errorVisible := false, listenersAttached := true } "good" true).1.isBackVisible = false := by
  have h := C1 [{ id := 1, front_content := "f1", back_content := "b1" }, { id := 2, front_content := "f2", back_content := "b2" }] (fun _ => 0) ["good", "easy"] { cards := [{ id := 1, front_content := "f1", back_content := "b1" }, { id := 2, front_content := "f2", back_content := "b2" }], currentCardIndex := 0, isBackVisible := true, actionBtnVisible := false, actionBtnEnabled := true, ratingVisible := true, ratingEnabled := true, controlsVisible := true, studyAreaVisible := true, completeVisible := false, errorVisible := false, listenersAttached := true } "good" (by decide) (by decide) (by decide)
  exact ⟨h.1, h.2.1, h.2.2.1, h.2.2.2.1, h.2.2.2.2.1, h.2.2.2.2.2.1, h.2.2.2.2.2.2 (by decide)⟩

/-! ## Reachability invariant (C7, C8, C9) -/

/-- The safety invariant of every reachable page state: whenever the
action button can deliver a click the index is in range, and whenever
a rating button can deliver a click the index is in range, the back is
revealed, and the action button is hidden. -/
def Inv (s : StudyState) : Prop :=
  (revealClickable s = true → s.currentCardIndex < s.cards.length) ∧
  (rateClickable s = true →
    s.currentCardIndex < s.cards.length ∧ s.isBackVisible = true ∧
    s.actionBtnVisible = false)

lemma initSession_of_ne (rnd : Nat → Nat) (cs : List Card) (h1 : cs ≠ []) :
    initSession rnd cs = { cards := shuffleArray rnd cs, currentCardIndex := 0, isBackVisible := false, actionBtnVisible := true, actionBtnEnabled := true, ratingVisible := false, ratingEnabled := true, controlsVisible := true, studyAreaVisible := true, completeVisible := false, errorVisible := false, listenersAttached := true } := by
  have hie : cs.isEmpty = false := by
    cases cs with
    | nil => exact absurd rfl h1
    | cons a t => rfl
  have hlp : ¬ ((shuffleArray rnd cs).length ≤ 0) := by
    rw [(shuffleArray_perm rnd cs).length_eq]
    have := List.length_pos.mpr h1
    omega
  simp only [initSession, hie, Bool.false_eq_true, if_false, loadCard, domInitial]
  rw [if_neg hlp]

lemma inv_init (rnd : Nat → Nat) (cs : List Card) : Inv (initSession rnd cs) := by
  by_cases h1 : cs = []
  · subst h1
    constructor
    · intro h
      simp [initSession, domInitial, revealClickable] at h
    · intro h
      simp [initSession, domInitial, rateClickable] at h
  · rw [initSession_of_ne rnd cs h1]
    constructor
    · intro h
      dsimp only
      rw [(shuffleArray_perm rnd cs).length_eq]
      exact List.length_pos.mpr h1
    · intro h
      simp [rateClickable] at h

lemma inv_step (s : StudyState) (e : Ev) (h : Inv s) : Inv (step s e).1 := by
  cases e with
  | actionClick =>
    by_cases hc : revealClickable s = true
    · have hidx := h.1 hc
      simp only [step, hc, if_true]
      by_cases hb : s.isBackVisible = true
      · simp only [handleActionClick, hb, if_true]
        exact h
      · have hb2 : s.isBackVisible = false := by
          cases hbv : s.isBackVisible
          · rfl
          · exact absurd hbv hb
        simp only [handleActionClick, hb2, Bool.false_eq_true, if_false]
        constructor
        · intro hrc
          simp [revealClickable] at hrc
        · intro hrc
          exact ⟨hidx, rfl, rfl⟩
    · simp only [step]
      rw [if_neg hc]
      exact h
  | ratingClick r ok =>
    by_cases hc : rateClickable s = true
    · obtain ⟨hidx, hb, hav⟩ := h.2 hc
      simp only [step, hc, if_true]
      have hcc : s.cards.get? s.currentCardIndex =
          some (s.cards.get ⟨s.currentCardIndex, hidx⟩) := List.get?_eq_get hidx
      cases ok with
      | true =>
        simp only [handleRatingClick, hcc, if_true]
        by_cases hend : s.cards.length ≤ s.currentCardIndex + 1
        · have hl : loadCard { s with ratingEnabled := false, currentCardIndex := s.currentCardIndex + 1 } (s.currentCardIndex + 1) = { s with ratingEnabled := false, currentCardIndex := s.currentCardIndex + 1, studyAreaVisible := false, controlsVisible := false, completeVisible := true } := by
            simp only [loadCard]
            rw [if_pos (by simpa using hend)]
          rw [hl]
          constructor
          · intro hrc
            simp [revealClickable, hav] at hrc
          · intro hrc
            simp [rateClickable] at hrc
        · have hl : loadCard { s with ratingEnabled := false, currentCardIndex := s.currentCardIndex + 1 } (s.currentCardIndex + 1) = { s with currentCardIndex := s.currentCardIndex + 1, isBackVisible := false, ratingVisible := false, ratingEnabled := true, actionBtnVisible := true, actionBtnEnabled := true } := by
            simp only [loadCard]
            rw [if_neg (by simpa using hend)]
          rw [hl]
          constructor
          · intro hrc
            dsimp only
            omega
          · intro hrc
            simp [rateClickable] at hrc
      | false =>
        simp only [handleRatingClick, hcc, Bool.false_eq_true, if_false]
        constructor
        · intro hrc
          simp [revealClickable, hav] at hrc
        · intro hrc
          exact ⟨hidx, hb, hav⟩
    · simp only [step]
      rw [if_neg hc]
      exact h

lemma inv_run (s : StudyState) (evs : List Ev) (h : Inv s) : Inv (run s evs).1 := by
  induction evs generalizing s with
  | nil => exact h
  | cons e es ih =>
    rw [run_cons]
    exact ih _ (inv_step s e h)

/-- C9: in every reachable state in which a rating click can fire, the
current index is strictly inside the card list, so the card lookup of
`handleRatingClick` always finds a card. -/
theorem C9 (cs : List Card) (rnd : Nat → Nat) (evs : List Ev)
    (h : rateClickable (run (initSession rnd cs) evs).1 = true) :
    (run (initSession rnd cs) evs).1.currentCardIndex <
      (run (initSession rnd cs) evs).1.cards.length ∧
    ((run (initSession rnd cs) evs).1.cards.get?
      (run (initSession rnd cs) evs).1.currentCardIndex).isSome = true := by
  have hinv := inv_run (initSession rnd cs) evs (inv_init rnd cs)
  obtain ⟨hidx, -, -⟩ := hinv.2 h
  refine ⟨hidx, ?_⟩
  rw [List.get?_eq_get hidx]
  rfl

/-- C9 witness: a one-card session right after the reveal click. -/
theorem C9_witness :
    (run (initSession (fun _ => 0) [{ id := 7, front_content := "f", back_content := "b" }]) [Ev.actionClick]).1.currentCardIndex < (run (initSession (fun _ => 0) [{ id := 7, front_content := "f", back_content := "b" }]) [Ev.actionClick]).1.cards.length ∧
    ((run (initSession (fun _ => 0) [{ id := 7, front_content := "f", back_content := "b" }]) [Ev.actionClick]).1.cards.get? (run (initSession (fun _ => 0) [{ id := 7, front_content := "f", back_content := "b" }]) [Ev.actionClick]).1.currentCardIndex).isSome = true :=
  C9 [{ id := 7, front_content := "f", back_content := "b" }] (fun _ => 0) [Ev.actionClick]
    (by decide)

/-- C7: in every reachable state whose reveal flag is clear, a rating
click is a no-op — the state is unchanged and no submission is sent
(the rating buttons are not clickable before the reveal). -/
theorem C7 (cs : List Card) (rnd : Nat → Nat) (evs : List Ev) (r : String) (ok : Bool)
    (h : (run (initSession rnd cs) evs).1.isBackVisible = false) :
    step (run (initSession rnd cs) evs).1 (Ev.ratingClick r ok) =
      ((run (initSession rnd cs) evs).1, []) := by
  have hinv := inv_run (initSession rnd cs) evs (inv_init rnd cs)
  by_cases hc : rateClickable (run (initSession rnd cs) evs).1 = true
  · obtain ⟨-, hb, -⟩ := hinv.2 hc
    rw [hb] at h
    cases h
  · simp only [step]
    rw [if_neg hc]

/-- C7 witness: the freshly started session (front shown, nothing
revealed) ignores a rating click. -/
theorem C7_witness :
    step (run (initSession (fun _ => 0) [{ id := 7, front_content := "f", back_content := "b" }]) []).1 (Ev.ratingClick "good" true) = ((run (initSession (fun _ => 0) [{ id := 7, front_content := "f", back_content := "b" }]) []).1, []) :=
  C7 [{ id := 7, front_content := "f", back_content := "b" }] (fun _ => 0) [] "good" true
    (by decide)

/-- C8: a rating click whose submission fails changes nothing but the
error banner: the index does not advance, the card list and reveal flag
are untouched (reveal stays true), the rating buttons end up enabled
again for a retry, and exactly one submission is issued — no automatic
retry. -/
theorem C8 (cs : List Card) (rnd : Nat → Nat) (evs : List Ev) (r : String)
    (h : rateClickable (run (initSession rnd cs) evs).1 = true) :
    step (run (initSession rnd cs) evs).1 (Ev.ratingClick r false) =
      ({ (run (initSession rnd cs) evs).1 with errorVisible := true, ratingEnabled := true },
       [{ card_id := (cardAt (run (initSession rnd cs) evs).1).id, rating := r }]) ∧
    (run (initSession rnd cs) evs).1.isBackVisible = true := by
  have hinv := inv_run (initSession rnd cs) evs (inv_init rnd cs)
  obtain ⟨hidx, hb, -⟩ := hinv.2 h
  have hcc : (run (initSession rnd cs) evs).1.cards.get?
      (run (initSession rnd cs) evs).1.currentCardIndex =
      some ((run (initSession rnd cs) evs).1.cards.get
        ⟨(run (initSession rnd cs) evs).1.currentCardIndex, hidx⟩) := List.get?_eq_get hidx
  have hca : cardAt (run (initSession rnd cs) evs).1 =
      (run (initSession rnd cs) evs).1.cards.get
        ⟨(run (initSession rnd cs) evs).1.currentCardIndex, hidx⟩ := by
    simp only [cardAt]
    rw [hcc]
    rfl
  refine ⟨?_, hb⟩
  rw [hca]
  simp only [step, h, if_true, handleRatingClick, hcc, Bool.false_eq_true, if_false]

/-- C8 witness: a failed submission on a one-card session after the
reveal. -/
theorem C8_witness :
    step (run (initSession (fun _ => 0) [{ id := 7, front_content := "f", back_content := "b" }]) [Ev.actionClick]).1 (Ev.ratingClick "hard" false) = ({ (run (initSession (fun _ => 0) [{ id := 7, front_content := "f", back_content := "b" }]) [Ev.actionClick]).1 with errorVisible := true, ratingEnabled := true }, [{ card_id := (cardAt (run (initSession (fun _ => 0) [{ id := 7, front_content := "f", back_content := "b" }]) [Ev.actionClick]).1).id, rating := "hard" }]) ∧
    (run (initSession (fun _ => 0) [{ id := 7, front_content := "f", back_content := "b" }]) [Ev.actionClick]).1.isBackVisible = true :=
  C8 [{ id := 7, front_content := "f", back_content := "b" }] (fun _ => 0) [Ev.actionClick]
    "hard" (by decide)

end Quizzer
